import Mathlib

/-!
Verification of the radiate retrieval and embedding pipeline.

This file shallowly embeds the core algorithms of the repository in Lean:

* the fixed-window chunker (radiate/ingest.py, chunk_text),
* the caching embedding provider (radiate/embeddings.py, EmbeddingProvider),
* the BM25 lexical scorer (radiate/retrieval.py, class BM25),
* reciprocal rank fusion and the hybrid retriever (radiate/retrieval.py,
  class HybridRetriever), and the query-engine dispatch (radiate/query.py),
* the ingestion pipeline and its directory aggregation
  (radiate/ingest.py and radiate/ingest_async.py).

Python floats are modelled as rationals, Python ints as Nat, external
services (the tiktoken tokenizer, the embedding backend, the vector
index) as function parameters, and fallible steps as Except values.
Python string helpers are re-implemented structurally over the
underlying character list so that all definitions are kernel-executable.
-/

/-! ### Python string helpers

The source tokenizes with text.lower().split() and tests blanks with
text.strip().  Lean's builtin String.toLower and String.trim do not
reduce in the kernel, so we model them over the character list.
-/

/-- Characters of a string after lowercasing, as in Python text.lower(). -/
def lowerChars (s : String) : List Char := s.data.map Char.toLower

/-- Split a character list on whitespace runs, dropping empty words;
this is the behaviour of Python str.split() with no argument. -/
def splitWSAux : List Char → List Char → List (List Char)
  | [], acc => if acc.isEmpty then [] else [acc.reverse]
  | c :: rest, acc =>
    if c.isWhitespace then
      (if acc.isEmpty then splitWSAux rest [] else acc.reverse :: splitWSAux rest [])
    else splitWSAux rest (c :: acc)

/-- BM25._tokenize: lowercase then whitespace split (retrieval.py). -/
def tokenizeM (s : String) : List String :=
  (splitWSAux (lowerChars s) []).map (fun w => String.mk w)

/-- Python: not text or not text.strip() — true iff every character is
whitespace (including the empty string). -/
def isBlank (s : String) : Bool := s.data.all Char.isWhitespace

/-! ### Fixed-window chunker (radiate/ingest.py, chunk_text)

The tiktoken encoder and decoder are passed in as parameters.  The
source loop

    while start < len(tokens):
        end = start + chunk_size
        chunks.append(encoding.decode(tokens[start:end]))
        start += chunk_size - overlap

is modelled with explicit fuel because it does not terminate when
chunk_size - overlap is not positive; a none result means the loop ran
out of fuel, i.e. the Python loop has not terminated within that many
iterations.
-/

/-- One-to-one image of the chunk_text while loop.  Each fuel unit is
one loop iteration; tokens[start:end] is drop/take. -/
def chunkLoop (tokens : List ℕ) (chunkSize overlap : ℕ) : ℕ → ℕ → Option (List (List ℕ))
  | 0, _ => none
  | fuel + 1, start =>
    if start < tokens.length then
      match chunkLoop tokens chunkSize overlap fuel (start + (chunkSize - overlap)) with
      | none => none
      | some rest => some (((tokens.drop start).take chunkSize) :: rest)
    else
      some []

/-- chunk_text(text, chunk_size, overlap) with the tokenizer passed in.
Fuel length+1 is enough whenever the stride is at least 1 (proved
below); none models non-termination of the source loop. -/
def chunk_text (encode : String → List ℕ) (decode : List ℕ → String)
    (text : String) (chunkSize overlap : ℕ) : Option (List String) :=
  let tokens := encode text
  (chunkLoop tokens chunkSize overlap (tokens.length + 1) 0).map (fun l => l.map decode)

/-- Number of chunks produced, when the loop terminates. -/
def numChunks (encode : String → List ℕ) (text : String) (chunkSize overlap : ℕ) : Option ℕ :=
  (chunk_text encode (fun _ => "") text chunkSize overlap).map List.length

/-! ### Embedding provider (radiate/embeddings.py, EmbeddingProvider)

The md5 content hash and the concrete backend (_embed_single) are
parameters.  Vectors are rational lists.  The Bool in the result of
embed records whether the backend was invoked on this call.
-/

/-- Mutable state of an EmbeddingProvider: usage counters and the
content-addressed cache (embeddings.py lines 23-28). -/
structure EmbState where
  total_embeddings : ℕ
  cached_embeddings : ℕ
  total_cost : ℚ
  cache : String → Option (List ℚ)

/-- The provider state right after construction. -/
def EmbState.init : EmbState :=
  { total_embeddings := 0, cached_embeddings := 0, total_cost := 0, cache := fun _ => none }

/-- EmbeddingProvider.embed (embeddings.py lines 39-58): reject blank
input, consult the cache under the content hash, otherwise call the
backend, store and count.  The returned Bool is true iff the backend
was invoked. -/
def embed (backend : String → List ℚ) (hashF : String → String)
    (s : EmbState) (text : String) : Except String (List ℚ × EmbState × Bool) :=
  if isBlank text then .error "Cannot embed empty text"
  else
    let key := hashF text
    match s.cache key with
    | some v => .ok (v, { s with cached_embeddings := s.cached_embeddings + 1 }, false)
    | none =>
      let v := backend text
      .ok (v, { s with total_embeddings := s.total_embeddings + 1,
                       cache := fun k => if k = key then some v else s.cache k }, true)

/-- EmbeddingProvider.embed_batch: embed each non-blank text in order,
dropping blank entries (embeddings.py line 62). -/
def embed_batch (backend : String → List ℚ) (hashF : String → String) :
    EmbState → List String → Except String (List (List ℚ) × EmbState)
  | s, [] => .ok ([], s)
  | s, t :: ts =>
    if isBlank t then embed_batch backend hashF s ts
    else
      match embed backend hashF s t with
      | .error e => .error e
      | .ok (v, s1, _) =>
        match embed_batch backend hashF s1 ts with
        | .error e => .error e
        | .ok (vs, s2) => .ok (v :: vs, s2)

/-! ### BM25 (radiate/retrieval.py, class BM25)

math.log is passed in as an abstract function on rationals; the claims
only use that log x is nonnegative for x at least 1.
-/

/-- Fitted BM25 state (retrieval.py lines 15-22 and fit). -/
structure BM25Model where
  k1 : ℚ
  b : ℚ
  corpus_size : ℕ
  avgdl : ℚ
  idf : String → Option ℚ
  doc_lengths : List ℕ

/-- Document frequency of a token: number of corpus documents whose
token set contains it (retrieval.py lines 42-46). -/
def bm25DF (corpus : List String) (token : String) : ℕ :=
  (corpus.filter (fun d => token ∈ tokenizeM d)).length

/-- BM25.fit (retrieval.py lines 28-51): lengths, average length,
document frequencies and idf = log((N - df + 0.5)/(df + 0.5) + 1).
The idf dict holds exactly the tokens that occur in the corpus. -/
def BM25.fit (log : ℚ → ℚ) (k1 b : ℚ) (corpus : List String) : BM25Model :=
  let lens := corpus.map (fun d => (tokenizeM d).length)
  { k1 := k1, b := b, corpus_size := corpus.length,
    avgdl := if 0 < corpus.length then ((lens.sum : ℚ) / (corpus.length : ℚ)) else 0,
    idf := fun token =>
      if 0 < bm25DF corpus token then
        some (log ((((corpus.length : ℚ) - (bm25DF corpus token : ℚ) + 1/2) /
                    ((bm25DF corpus token : ℚ) + 1/2)) + 1))
      else none,
    doc_lengths := lens }

/-- Contribution of one query token to one document's score
(retrieval.py lines 73-84); tokens absent from the idf dict
contribute nothing. -/
def bm25TokenScore (m : BM25Model) (docTokens : List String) (docLen : ℕ) (token : String) : ℚ :=
  match m.idf token with
  | none => 0
  | some idfScore =>
    let tf : ℚ := ((docTokens.count token : ℕ) : ℚ)
    idfScore * ((tf * (m.k1 + 1)) / (tf + m.k1 * (1 - m.b + m.b * ((docLen : ℚ) / m.avgdl))))

/-- Per-document score: the loop over query tokens accumulating into
score, started at 0.0 (retrieval.py lines 72-84). -/
def bm25ScoreDoc (m : BM25Model) (queryTokens docTokens : List String) (docLen : ℕ) : ℚ :=
  queryTokens.foldl (fun score token => score + bm25TokenScore m docTokens docLen token) 0

/-- BM25.get_scores (retrieval.py lines 53-88): one score per document
of the argument corpus; the document length comes from the fitted
doc_lengths at the same index, the term frequencies from the argument
document.  Mirrors for idx, doc in enumerate(corpus). -/
def BM25.get_scores (m : BM25Model) (query : String) (corpus : List String) : List ℚ :=
  (List.range corpus.length).map (fun idx =>
    bm25ScoreDoc m (tokenizeM query) (tokenizeM (corpus.getD idx "")) (m.doc_lengths.getD idx 0))

/-! ### Hybrid retrieval (radiate/retrieval.py, class HybridRetriever)

The dense search path (query embedding plus vector-index lookup) is an
external service, modelled as a function from a limit to a hit list.
-/

/-- One search hit as assembled by HybridRetriever._dense_search
(retrieval.py lines 205-215); the metadata dict is not modelled. -/
structure SearchResult where
  id : ℕ
  text : String
  score : ℚ
  source : String
  chunk_index : ℕ
deriving DecidableEq, Inhabited

/-- Index of the last occurrence of an id, starting the numbering at k.
Python builds dense_ranks as a dict comprehension over enumerate, so a
duplicated id keeps its last index. -/
def lastIndexFrom (i : ℕ) : List ℕ → ℕ → Option ℕ
  | [], _ => none
  | x :: xs, k =>
    match lastIndexFrom i xs (k + 1) with
    | some r => some r
    | none => if x = i then some k else none

/-- Rank of an id in a result list (retrieval.py lines 124-125). -/
def rankOf (l : List SearchResult) (i : ℕ) : Option ℕ :=
  lastIndexFrom i (l.map (fun r => r.id)) 0

/-- RRF score of one id: 1/(rrf_k + rank + 1) from each list containing
it (retrieval.py lines 131-140). -/
def rrfScoreOf (K : ℕ) (dense sparse : List SearchResult) (i : ℕ) : ℚ :=
  (match rankOf dense i with
   | some rk => 1 / ((K : ℚ) + (rk : ℚ) + 1)
   | none => 0) +
  (match rankOf sparse i with
   | some rk => 1 / ((K : ℚ) + (rk : ℚ) + 1)
   | none => 0)

/-- The ids appearing in either list.  Python iterates a set union
whose order is unspecified; dedup of the concatenation is one
enumeration of that set, and the facts proved below do not depend on
the enumeration order. -/
def allIds (dense sparse : List SearchResult) : List ℕ :=
  ((dense.map (fun r => r.id)) ++ (sparse.map (fun r => r.id))).dedup

/-- results_map lookup: the payload of the first result in
dense_results + sparse_results carrying the id (retrieval.py 143-146). -/
def firstResultFor (dense sparse : List SearchResult) (i : ℕ) : SearchResult :=
  ((dense ++ sparse).find? (fun r => r.id = i)).getD default

/-- HybridRetriever._reciprocal_rank_fusion (retrieval.py 108-155):
score every id, attach the first-encountered payload, sort by score
descending (Python sorted with reverse=True is a stable sort, as is
mergeSort). -/
def reciprocal_rank_fusion (K : ℕ) (dense sparse : List SearchResult) :
    List (SearchResult × ℚ) :=
  ((allIds dense sparse).map
    (fun i => (firstResultFor dense sparse i, rrfScoreOf K dense sparse i))).mergeSort
    (fun a b => decide (b.2 ≤ a.2))

/-- HybridRetriever._sparse_search (retrieval.py 219-250): take
initial_k dense candidates, fit BM25 on their texts, rescore, sort by
the BM25 score descending, truncate to top_k. -/
def sparse_search (log : ℚ → ℚ) (denseF : ℕ → List SearchResult)
    (query : String) (top_k initial_k : ℕ) : List SearchResult :=
  let candidates := denseF initial_k
  if candidates.isEmpty then []
  else
    let corpus := candidates.map (fun c => c.text)
    let m := BM25.fit log (3/2) (3/4) corpus
    let scores := BM25.get_scores m query corpus
    let cands := candidates.mapIdx (fun idx c => { c with score := scores.getD idx 0 })
    (cands.mergeSort (fun a b => decide (b.score ≤ a.score))).take top_k

/-- HybridRetriever.search (retrieval.py 157-193).  The snd component
of a returned pair is the rrf_score key, present only on fused
results.  An unknown mode raises ValueError. -/
def HybridRetriever.search (log : ℚ → ℚ) (rrf_k : ℕ) (denseF : ℕ → List SearchResult)
    (query : String) (top_k initial_k : ℕ) (mode : String) :
    Except String (List (SearchResult × Option ℚ)) :=
  if mode = "dense" then .ok ((denseF top_k).map (fun r => (r, none)))
  else if mode = "sparse" then
    .ok ((sparse_search log denseF query top_k initial_k).map (fun r => (r, none)))
  else if mode = "hybrid" then
    let dense_results := denseF initial_k
    let sparse_results := sparse_search log denseF query initial_k initial_k
    .ok (((reciprocal_rank_fusion rrf_k dense_results sparse_results).take top_k).map
      (fun e => (e.1, some e.2)))
  else .error ("Unknown mode: " ++ mode ++ ". Use 'dense', 'sparse', or 'hybrid'")

/-- QueryEngine.search (query.py 24-76): sparse and hybrid are routed
to a HybridRetriever built with the default rrf_k = 60 and the default
initial_k = 100; every other mode falls through to the plain dense
search (which omits the id key from its payload dicts; the claims do
not depend on that key). -/
def QueryEngine.search (log : ℚ → ℚ) (denseF : ℕ → List SearchResult)
    (query : String) (top_k : ℕ) (mode : String) :
    Except String (List (SearchResult × Option ℚ)) :=
  if mode = "sparse" || mode = "hybrid" then
    HybridRetriever.search log 60 denseF query top_k 100 mode
  else .ok ((denseF top_k).map (fun r => (r, none)))

/-- Radiate.search (core.py 306-320) constructs a QueryEngine and
delegates. -/
def Radiate.search (log : ℚ → ℚ) (denseF : ℕ → List SearchResult)
    (query : String) (top_k : ℕ) (mode : String) :
    Except String (List (SearchResult × Option ℚ)) :=
  QueryEngine.search log denseF query top_k mode

/-- QueryEngine.query (query.py 78-110): search, then format the hits
into a context string; float formatting (with 4 decimals) is abstracted
as scoreFmt.  Radiate.query (core.py 283-304) delegates here. -/
def Radiate.query (scoreFmt : ℚ → String) (log : ℚ → ℚ) (denseF : ℕ → List SearchResult)
    (question : String) (top_k : ℕ) (mode : String) : Except String String :=
  (QueryEngine.search log denseF question top_k mode).map (fun results =>
    if results.isEmpty then "No relevant information found."
    else String.intercalate "\n\n" (results.map (fun r =>
      "[Source: " ++ r.1.source ++ ", Chunk " ++ toString r.1.chunk_index ++ ", " ++
        (if mode = "hybrid" && r.2.isSome then "RRF" else "Score") ++ ": " ++
        scoreFmt (r.2.getD r.1.score) ++ "]\n" ++ r.1.text)))

/-! ### Ingestion pipeline (radiate/ingest.py, DocumentIngester)

File reading, chunking, batch embedding and the vector-index upsert are
effectful steps passed in as Except-valued functions; an error value is
a raised exception carrying str(e).
-/

/-- Per-file status strings used in ingest.py. -/
inductive IngStatus where
  | success
  | skipped
  | failed
deriving DecidableEq, Repr

/-- The per-file result dict of DocumentIngester.ingest_file. -/
structure IngOutcome where
  file : String
  chunks_ingested : ℕ
  status : IngStatus
  error : Option String
  reason : Option String
deriving DecidableEq, Repr

/-- The directory-level result dict of ingest_directory. -/
structure IngSummary where
  total_files : ℕ
  successful : ℕ
  failed : ℕ
  total_chunks : ℕ
  details : List IngOutcome
deriving DecidableEq, Repr

/-- DocumentIngester.ingest_file (ingest.py 94-160): read, chunk, embed,
upsert; zero chunks is reported skipped; any raising step is caught and
reported failed with the message preserved. -/
def ingest_file (readF : String → Except String String)
    (chunkF : String → Except String (List String))
    (embedF : List String → Except String (List (List ℚ)))
    (upsertF : String → List String → List (List ℚ) → Except String Unit)
    (file : String) : IngOutcome :=
  match readF file with
  | .error e => ⟨file, 0, .failed, some e, none⟩
  | .ok text =>
    match chunkF text with
    | .error e => ⟨file, 0, .failed, some e, none⟩
    | .ok chunks =>
      if chunks.isEmpty then ⟨file, 0, .skipped, none, some "No content to ingest"⟩
      else
        match embedF chunks with
        | .error e => ⟨file, 0, .failed, some e, none⟩
        | .ok embeddings =>
          match upsertF file chunks embeddings with
          | .error e => ⟨file, 0, .failed, some e, none⟩
          | .ok _ => ⟨file, chunks.length, .success, none, none⟩

/-- The aggregation step of the ingest_directory loop (ingest.py
200-209): success bumps successful and total_chunks, anything else
bumps failed; every outcome is appended to details. -/
def ingStep (acc : IngSummary) (r : IngOutcome) : IngSummary :=
  if r.status = .success then
    { acc with successful := acc.successful + 1,
               total_chunks := acc.total_chunks + r.chunks_ingested,
               details := acc.details ++ [r] }
  else
    { acc with failed := acc.failed + 1, details := acc.details ++ [r] }

/-- The summary built by ingest_directory over a discovered file list
(ingest.py 192-209), before the empty-match check. -/
def ingest_directory_core (readF : String → Except String String)
    (chunkF : String → Except String (List String))
    (embedF : List String → Except String (List (List ℚ)))
    (upsertF : String → List String → List (List ℚ) → Except String Unit)
    (files : List String) : IngSummary :=
  files.foldl (fun acc f => ingStep acc (ingest_file readF chunkF embedF upsertF f))
    { total_files := files.length, successful := 0, failed := 0, total_chunks := 0, details := [] }

/-- DocumentIngester.ingest_directory (ingest.py 162-215): an empty
match list raises ValueError, otherwise every file is ingested. -/
def ingest_directory (readF : String → Except String String)
    (chunkF : String → Except String (List String))
    (embedF : List String → Except String (List (List ℚ)))
    (upsertF : String → List String → List (List ℚ) → Except String Unit)
    (files : List String) : Except String IngSummary :=
  if files.isEmpty then .error "No files matching pattern found"
  else .ok (ingest_directory_core readF chunkF embedF upsertF files)

/-! ### Concurrent directory aggregation (radiate/ingest_async.py)

ingest_directory_async gathers one result per scheduled file; each is
either a per-file outcome dict (ingest_file_async catches its own
exceptions) or, with return_exceptions=True, a bare exception.  The
aggregation loop of lines 159-172 is modelled over that result list.
-/

/-- One aggregation step of ingest_directory_async: an exception counts
as failed with a synthesized detail dict carrying only the message; an
outcome is folded exactly as in the sequential path. -/
def ingAsyncStep (acc : IngSummary) (item : Except String IngOutcome) : IngSummary :=
  match item with
  | .error e => { acc with failed := acc.failed + 1,
                           details := acc.details ++ [⟨"", 0, .failed, some e, none⟩] }
  | .ok r =>
    if r.status = .success then
      { acc with successful := acc.successful + 1,
                 total_chunks := acc.total_chunks + r.chunks_ingested,
                 details := acc.details ++ [r] }
    else
      { acc with failed := acc.failed + 1, details := acc.details ++ [r] }

/-- The summary aggregated by ingest_directory_async (ingest_async.py
137-172) from the gathered per-file results, in whatever completion
order the event loop delivered them. -/
def ingest_directory_async_core (items : List (Except String IngOutcome)) : IngSummary :=
  items.foldl ingAsyncStep
    { total_files := items.length, successful := 0, failed := 0, total_chunks := 0, details := [] }

/-! ### Concurrent batch embedding, modelled from the spec

ingest_async.py line 57 awaits radiate.embedder.embed_batch_async(
chunks, batch_size=32, max_concurrent=5), but no such method exists in
the repository (embeddings.py defines only embed and embed_batch), so
the implementation is modelled from the spec here.
-/

/-- Modelled from the spec: embedBatchConcurrent partitions texts into
batches of batchSize (section 4.1); the batching itself, missing from
the source, is the standard take/drop split.  Fuel equals the list
length, which suffices for a positive batch size. -/
def batchesGo (bs : ℕ) : ℕ → List String → List (List String)
  | 0, l => if l.isEmpty then [] else [l]
  | fuel + 1, l => if l.isEmpty then [] else l.take bs :: batchesGo bs fuel (l.drop bs)

/-- Modelled from the spec: the batch partition of the input texts. -/
def batchesOf (bs : ℕ) (texts : List String) : List (List String) :=
  batchesGo bs texts.length texts

/-- Modelled from the spec: one batch embeds its texts in order through
the shared provider cache, as embed_batch does for non-blank input. -/
def embedTexts (backend : String → List ℚ) (hashF : String → String) :
    EmbState → List String → Except String (List (List ℚ) × EmbState)
  | s, [] => .ok ([], s)
  | s, t :: ts =>
    match embed backend hashF s t with
    | .error e => .error e
    | .ok (v, s1, _) =>
      match embedTexts backend hashF s1 ts with
      | .error e => .error e
      | .ok (vs, s2) => .ok (v :: vs, s2)

/-- Modelled from the spec: batches complete in an arbitrary order
(the order list); each completed batch stores its vectors in a slot
keyed by its batch index, never by arrival position. -/
def runBatches (backend : String → List ℚ) (hashF : String → String)
    (batches : List (List String)) :
    List ℕ → EmbState → (ℕ → Option (List (List ℚ))) →
    Except String (ℕ → Option (List (List ℚ)))
  | [], _, slots => .ok slots
  | i :: rest, s, slots =>
    match embedTexts backend hashF s (batches.getD i []) with
    | .error e => .error e
    | .ok (vs, s1) =>
      runBatches backend hashF batches rest s1 (fun j => if j = i then some vs else slots j)

/-- Modelled from the spec: embedBatchConcurrent(texts, batchSize,
maxConcurrent) with an explicit completion order; the result is
re-assembled by batch index over range, regardless of that order.
maxConcurrent only bounds the in-flight batches (modelled by the
admission trace below) and does not affect the value. -/
def embed_batch_concurrent (backend : String → List ℚ) (hashF : String → String)
    (s : EmbState) (texts : List String) (batchSize : ℕ) (order : List ℕ) :
    Except String (List (List ℚ)) :=
  let batches := batchesOf batchSize texts
  (runBatches backend hashF batches order s (fun _ => none)).map (fun slots =>
    ((List.range batches.length).map (fun i => (slots i).getD [])).flatten)

/-- Modelled from the spec: events of the admission gate; a batch
acquires the gate when it starts and releases it on completion. -/
inductive BatchEv where
  | start (i : ℕ)
  | finish (i : ℕ)
deriving DecidableEq, Repr

/-- Number of batches in flight after a trace of gate events. -/
def inFlight (tr : List BatchEv) : ℕ :=
  tr.foldl (fun n e => match e with | .start _ => n + 1 | .finish _ => n - 1) 0

/-- Modelled from the spec: admissible gate traces — a batch may start
only while fewer than maxC batches are in flight (acquire-before-start,
release-on-completion). -/
inductive Admissible (maxC : ℕ) : List BatchEv → Prop where
  | nil : Admissible maxC []
  | start (tr : List BatchEv) (i : ℕ) (h : Admissible maxC tr)
      (hlt : inFlight tr < maxC) : Admissible maxC (tr ++ [.start i])
  | finish (tr : List BatchEv) (i : ℕ) (h : Admissible maxC tr)
      (hpos : 0 < inFlight tr) : Admissible maxC (tr ++ [.finish i])

/-- The cache never holds anything but the backend value of some text
hashing to the key; initial states and all states reachable by embed
satisfy it. -/
def CacheCoherent (backend : String → List ℚ) (hashF : String → String) (s : EmbState) : Prop :=
  ∀ t : String, s.cache (hashF t) = none ∨ s.cache (hashF t) = some (backend t)


/-! ### Further definitions used by the theorems -/

/-- Spec-side RRF score ("rrfScore = sum of 1/(rrfConstant + rank + 1)
over the lists in which the id appears, rank being the 0-based position
in that list"), written with indexOf as the spec reads. -/
def specRrfScore (K : ℕ) (dense sparse : List SearchResult) (i : ℕ) : ℚ :=
  (if i ∈ dense.map (fun r => r.id) then
    1 / ((K : ℚ) + (((dense.map (fun r => r.id)).indexOf i : ℕ) : ℚ) + 1)
   else 0) +
  (if i ∈ sparse.map (fun r => r.id) then
    1 / ((K : ℚ) + (((sparse.map (fun r => r.id)).indexOf i : ℕ) : ℚ) + 1)
   else 0)

/-- Status test used by the directory aggregation loops. -/
def isSuccess (r : IngOutcome) : Bool :=
  match r.status with
  | .success => true
  | _ => false

/-- The detail record an async aggregation step files for a gathered
item: a raised exception becomes a synthetic failed record, an outcome
dict is kept as is. -/
def asyncOutcome (item : Except String IngOutcome) : IngOutcome :=
  match item with
  | .error e => ⟨"", 0, .failed, some e, none⟩
  | .ok r => r

/-- The dense list [A, B, C] of the C2 scenario (ids 1, 2, 3). -/
def denseC2 : List SearchResult :=
  [⟨1, "A", 9/10, "s", 0⟩, ⟨2, "B", 8/10, "s", 1⟩, ⟨3, "C", 7/10, "s", 2⟩]

/-- The sparse list [B, C, D] of the C2 scenario (ids 2, 3, 4). -/
def sparseC2 : List SearchResult :=
  [⟨2, "B", 5, "s", 1⟩, ⟨3, "C", 4, "s", 2⟩, ⟨4, "D", 3, "s", 3⟩]

/-- Witness fixture: a reader that fails on one specific file. -/
def readFW : String → Except String String :=
  fun f => if f = "bad.txt" then .error "corrupt" else .ok "hello world"

/-- Witness fixture: chunking that yields the whole text as one chunk. -/
def chunkFW : String → Except String (List String) := fun t => .ok [t]

/-- Witness fixture: an embedder mapping every chunk to a unit vector. -/
def embedFW : List String → Except String (List (List ℚ)) :=
  fun cs => .ok (cs.map (fun _ => [1]))

/-- Witness fixture: an upsert that always succeeds. -/
def upsertFW : String → List String → List (List ℚ) → Except String Unit :=
  fun _ _ _ => .ok ()

/-- Witness fixture: four valid files and one corrupt file. -/
def filesW : List String := ["a.txt", "b.txt", "bad.txt", "c.txt", "d.txt"]

/-- One of the four effectful steps of ingest_file raises with message
e: the read, the chunking, the batch embedding, or the upsert. -/
def stepFails (readF : String → Except String String)
    (chunkF : String → Except String (List String))
    (embedF : List String → Except String (List (List ℚ)))
    (upsertF : String → List String → List (List ℚ) → Except String Unit)
    (f e : String) : Prop :=
  readF f = .error e ∨
  (∃ text, readF f = .ok text ∧ chunkF text = .error e) ∨
  (∃ text chunks, readF f = .ok text ∧ chunkF text = .ok chunks ∧ chunks ≠ [] ∧
    embedF chunks = .error e) ∨
  (∃ text chunks embeddings, readF f = .ok text ∧ chunkF text = .ok chunks ∧ chunks ≠ [] ∧
    embedF chunks = .ok embeddings ∧ upsertF f chunks embeddings = .error e)

/-! ## Theorems -/

/-! ### Chunk counting (claims C1 and C3) -/

/-- Ceiling-division step: one window of stride s taken off m remaining
tokens. -/
lemma ceil_div_step (m s : ℕ) (hs : 1 ≤ s) (hm : 1 ≤ m) :
    (m + s - 1) / s = (m - s + s - 1) / s + 1 := by
  rcases le_or_lt m s with hle | hlt
  · have h0 : m - s = 0 := by omega
    have h1 : (m + s - 1) / s = 1 := by
      apply Nat.div_eq_of_lt_le <;> omega
    have h2 : (m - s + s - 1) / s = 0 := by
      apply Nat.div_eq_of_lt
      omega
    rw [h0] at h2
    rw [h1, h0, h2]
  · have h2 : m - s + s - 1 = m - 1 := by omega
    have h1 : m + s - 1 = (m - 1) + s := by omega
    rw [h2, h1, Nat.add_div_right _ (by omega)]

/-- The chunk_text loop terminates for positive stride and yields
exactly ceil((length - start) / stride) chunks. -/
lemma chunkLoop_count (tokens : List ℕ) (c o : ℕ) (h : o < c) :
    ∀ fuel start, tokens.length - start < fuel →
      ∃ l, chunkLoop tokens c o fuel start = some l ∧
        l.length = (tokens.length - start + (c - o) - 1) / (c - o) := by
  intro fuel
  induction fuel with
  | zero => intro start hf; omega
  | succ n ih =>
    intro start hf
    by_cases hlt : start < tokens.length
    · have hs : 1 ≤ c - o := by omega
      obtain ⟨l, hl, hlen⟩ := ih (start + (c - o)) (by omega)
      refine ⟨((tokens.drop start).take c) :: l, ?_, ?_⟩
      · simp [chunkLoop, hlt, hl]
      · have hsub : tokens.length - (start + (c - o)) = (tokens.length - start) - (c - o) := by
          omega
        rw [List.length_cons, hlen, hsub,
          ceil_div_step (tokens.length - start) (c - o) hs (by omega)]
    · refine ⟨[], ?_, ?_⟩
      · simp [chunkLoop, hlt]
      · have h0 : tokens.length - start = 0 := by omega
        rw [h0, Nat.zero_add]
        exact (Nat.div_eq_of_lt (by omega)).symm

/-- C1 (amended): for stride = chunkSize - overlap at least 1, the
fixed-window chunker produces exactly ceil(N / stride) chunks for a
text of N tokens; it produces exactly 1 chunk whenever 1 <= N <= stride
(not whenever N <= chunkSize, as the original claim stated). -/
theorem chunk_text_count (encode : String → List ℕ) (decode : List ℕ → String)
    (text : String) (c o : ℕ) (h : o < c) :
    (chunk_text encode decode text c o).map List.length =
      some (((encode text).length + (c - o) - 1) / (c - o)) ∧
    (1 ≤ (encode text).length → (encode text).length ≤ c - o →
      (chunk_text encode decode text c o).map List.length = some 1) := by
  obtain ⟨l, hl, hlen⟩ :=
    chunkLoop_count (encode text) c o h ((encode text).length + 1) 0 (by omega)
  have hmain : (chunk_text encode decode text c o).map List.length =
      some (((encode text).length + (c - o) - 1) / (c - o)) := by
    simp only [chunk_text, hl, Option.map_map, Option.map_some]
    simp [Function.comp, hlen]
  refine ⟨hmain, fun h1 h2 => ?_⟩
  have hone : ((encode text).length + (c - o) - 1) / (c - o) = 1 := by
    apply Nat.div_eq_of_lt_le <;> omega
  rw [hmain, hone]

/-- Witness for chunk_text_count: 7 tokens, chunkSize 3, overlap 1,
stride 2, hence ceil(7/2) = 4 chunks. -/
theorem chunk_text_count_witness :
    1 < 3 ∧
      (chunk_text (fun _ => List.range 7) (fun _ => "") "x" 3 1).map List.length = some 4 := by
  refine ⟨by omega, ?_⟩
  have h := (chunk_text_count (fun _ => List.range 7) (fun _ => "") "x" 3 1 (by omega)).1
  simpa using h

/-- Counterexample to C1 as stated: 2 tokens, chunkSize 2, overlap 1 is
a valid configuration with N <= chunkSize, the claimed count
ceil((N - overlap)/(chunkSize - overlap)) is 1, yet the code produces
2 chunks (the loop re-enters at start = 1 < 2). -/
theorem chunk_text_count_counterexample :
    (chunk_text (fun _ => [0, 1]) (fun _ => "") "x" 2 1).map List.length = some 2 ∧
    2 ≤ 2 ∧ (2 - 1 + (2 - 1) - 1) / (2 - 1) = 1 ∧ 2 ≠ 1 := by
  refine ⟨?_, by omega, by norm_num, by omega⟩
  decide

/-- C3: with chunkSize = overlap = 50 (stride 0, a configuration the
spec says must fail with InvalidChunkConfigError) the chunk_text loop
never terminates on a nonempty token list — no fuel bound suffices —
and no error of any kind is raised; the code has no stride check. -/
theorem chunkLoop_stride_zero_diverges :
    ∀ fuel : ℕ, chunkLoop [0] 50 50 fuel 0 = none := by
  intro fuel
  induction fuel with
  | zero => rfl
  | succ n ih => simp [chunkLoop, ih]

/-! ### Embedding cache idempotence (claim C5) -/

/-- C5: embedding the same non-blank text twice returns the identical
vector both times; the second call increments cached_embeddings, leaves
total_embeddings and the cache untouched, and does not invoke the
backend (the Bool is false). -/
theorem embed_twice_cached (backend : String → List ℚ) (hashF : String → String)
    (s : EmbState) (text : String) (h : isBlank text = false) :
    ∃ v s1 b1, embed backend hashF s text = .ok (v, s1, b1) ∧
      embed backend hashF s1 text =
        .ok (v, { s1 with cached_embeddings := s1.cached_embeddings + 1 }, false) := by
  cases hc : s.cache (hashF text) with
  | some v =>
    refine ⟨v, { s with cached_embeddings := s.cached_embeddings + 1 }, false, ?_, ?_⟩
    · simp [embed, h, hc]
    · simp [embed, h, hc]
  | none =>
    refine ⟨backend text,
      { s with total_embeddings := s.total_embeddings + 1,
               cache := fun k => if k = hashF text then some (backend text) else s.cache k },
      true, ?_, ?_⟩
    · simp [embed, h, hc]
    · simp [embed, h]

/-- Witness for embed_twice_cached on a fresh provider and the text
"hi". -/
theorem embed_twice_cached_witness :
    isBlank "hi" = false ∧
    ∃ v s1 b1, embed (fun _ => [1]) (fun t => t) EmbState.init "hi" = .ok (v, s1, b1) ∧
      embed (fun _ => [1]) (fun t => t) s1 "hi" =
        .ok (v, { s1 with cached_embeddings := s1.cached_embeddings + 1 }, false) :=
  ⟨by decide, embed_twice_cached (fun _ => [1]) (fun t => t) EmbState.init "hi" (by decide)⟩

/-! ### Reciprocal rank fusion (claims C2 and C4) -/

/-- The fused list is always non-increasing in the attached rrf score:
mergeSort with the reversed comparison sorts descending. -/
lemma rrf_fusion_sorted (K : ℕ) (dense sparse : List SearchResult) :
    List.Pairwise (fun a b : SearchResult × ℚ => b.2 ≤ a.2)
      (reciprocal_rank_fusion K dense sparse) := by
  have h := @List.sorted_mergeSort (SearchResult × ℚ) (fun a b => decide (b.2 ≤ a.2))
    (fun a b c h1 h2 => by
      simp only [decide_eq_true_eq] at *
      exact le_trans h2 h1)
    (fun a b => by
      simp only [Bool.or_eq_true, decide_eq_true_eq]
      exact le_total b.2 a.2)
    ((allIds dense sparse).map fun i => (firstResultFor dense sparse i, rrfScoreOf K dense sparse i))
  exact h.imp (fun hab => by simpa using hab)

/-- Counterexample to C2 as stated: with dense [A, B, C] and sparse
[B, C, D] and rrfConstant 60, B sits at 0-based rank 1 in the dense
list, so the code assigns it 1/62 + 1/61, not 1/61 + 1/61. -/
theorem rrf_example_counterexample :
    rrfScoreOf 60 denseC2 sparseC2 2 ≠ 1/61 + 1/61 ∧
    rrfScoreOf 60 denseC2 sparseC2 2 = 1/62 + 1/61 := by
  have h : rrfScoreOf 60 denseC2 sparseC2 2 = 1/62 + 1/61 := by
    simp [rrfScoreOf, rankOf, denseC2, sparseC2, lastIndexFrom]
    norm_num
  refine ⟨?_, h⟩
  rw [h]
  norm_num

/-- C2 (amended): in the [A, B, C] / [B, C, D] scenario with
rrfConstant 60, B's fused score is 1/62 + 1/61 (dense rank 1, sparse
rank 0), D's fused score is 1/63 (sparse rank 2 only), both appear in
the fused output with exactly those scores, and the fused list is
ordered non-increasing in rrf score. -/
theorem rrf_example :
    rrfScoreOf 60 denseC2 sparseC2 2 = 1/62 + 1/61 ∧
    rrfScoreOf 60 denseC2 sparseC2 4 = 1/63 ∧
    (firstResultFor denseC2 sparseC2 2, rrfScoreOf 60 denseC2 sparseC2 2) ∈
      reciprocal_rank_fusion 60 denseC2 sparseC2 ∧
    (firstResultFor denseC2 sparseC2 4, rrfScoreOf 60 denseC2 sparseC2 4) ∈
      reciprocal_rank_fusion 60 denseC2 sparseC2 ∧
    List.Pairwise (fun a b : SearchResult × ℚ => b.2 ≤ a.2)
      (reciprocal_rank_fusion 60 denseC2 sparseC2) := by
  refine ⟨?_, ?_, ?_, ?_, rrf_fusion_sorted 60 denseC2 sparseC2⟩
  · simp [rrfScoreOf, rankOf, denseC2, sparseC2, lastIndexFrom]
    norm_num
  · simp [rrfScoreOf, rankOf, denseC2, sparseC2, lastIndexFrom]
    norm_num
  · rw [reciprocal_rank_fusion, (List.mergeSort_perm _ _).mem_iff]
    exact List.mem_map_of_mem _ (by decide)
  · rw [reciprocal_rank_fusion, (List.mergeSort_perm _ _).mem_iff]
    exact List.mem_map_of_mem _ (by decide)

/-! ### Ingestion aggregation (claims C7 and C10) -/

/-- Closed form of the directory aggregation loop over any outcome
list and accumulator. -/
lemma foldl_ingStep (outs : List IngOutcome) :
    ∀ acc : IngSummary,
      outs.foldl ingStep acc =
        { total_files := acc.total_files,
          successful := acc.successful + (outs.filter isSuccess).length,
          failed := acc.failed + (outs.filter (fun r => ! isSuccess r)).length,
          total_chunks := acc.total_chunks +
            ((outs.filter isSuccess).map IngOutcome.chunks_ingested).sum,
          details := acc.details ++ outs } := by
  induction outs with
  | nil => intro acc; simp
  | cons r rest ih =>
    intro acc
    rw [List.foldl_cons, ih]
    by_cases h : r.status = IngStatus.success
    · have hs : isSuccess r = true := by simp [isSuccess, h]
      simp [ingStep, h, hs, IngSummary.mk.injEq]
      omega
    · have hs : isSuccess r = false := by
        unfold isSuccess
        cases hr : r.status
        · exact absurd hr h
        · rfl
        · rfl
      simp [ingStep, h, hs, IngSummary.mk.injEq]
      omega

/-- One async aggregation step is the sequential step applied to the
detail record of the gathered item. -/
lemma ingAsyncStep_eq (acc : IngSummary) (item : Except String IngOutcome) :
    ingAsyncStep acc item = ingStep acc (asyncOutcome item) := by
  cases item with
  | error e => simp [ingAsyncStep, ingStep, asyncOutcome]
  | ok r =>
    by_cases h : r.status = IngStatus.success <;> simp [ingAsyncStep, ingStep, asyncOutcome, h]

/-- C7: a file any of whose steps (read, chunk, embed, upsert) raises
is reported failed with the message preserved; directory ingestion
still processes every file, its details list every outcome in file
order, and successful and failed count exactly the success and
non-success outcomes. -/
theorem ingest_failure_isolated (readF : String → Except String String)
    (chunkF : String → Except String (List String))
    (embedF : List String → Except String (List (List ℚ)))
    (upsertF : String → List String → List (List ℚ) → Except String Unit)
    (files : List String) (f e : String)
    (hmem : f ∈ files) (hfail : stepFails readF chunkF embedF upsertF f e) :
    (ingest_file readF chunkF embedF upsertF f).status = .failed ∧
    (ingest_file readF chunkF embedF upsertF f).error = some e ∧
    ∃ s, ingest_directory readF chunkF embedF upsertF files = .ok s ∧
      s.details = files.map (ingest_file readF chunkF embedF upsertF) ∧
      s.total_files = files.length ∧
      s.successful =
        ((files.map (ingest_file readF chunkF embedF upsertF)).filter isSuccess).length ∧
      s.failed =
        ((files.map (ingest_file readF chunkF embedF upsertF)).filter
          (fun r => ! isSuccess r)).length := by
  have hout : (ingest_file readF chunkF embedF upsertF f).status = .failed ∧
      (ingest_file readF chunkF embedF upsertF f).error = some e := by
    rcases hfail with hread | ⟨text, hread, hchunk⟩ |
      ⟨text, chunks, hread, hchunk, hne, hembed⟩ |
      ⟨text, chunks, embeddings, hread, hchunk, hne, hembed, hup⟩
    · constructor <;> simp [ingest_file, hread]
    · constructor <;> simp [ingest_file, hread, hchunk]
    · constructor <;>
        simp [ingest_file, hread, hchunk, List.isEmpty_iff.not.mpr hne, hembed]
    · constructor <;>
        simp [ingest_file, hread, hchunk, List.isEmpty_iff.not.mpr hne, hembed, hup]
  refine ⟨hout.1, hout.2, ?_⟩
  have hne : files.isEmpty = false := by
    cases files with
    | nil => cases hmem
    | cons a l => rfl
  refine ⟨ingest_directory_core readF chunkF embedF upsertF files, ?_, ?_, ?_, ?_, ?_⟩
  · simp [ingest_directory, hne]
  all_goals
    rw [ingest_directory_core, show
      (files.foldl (fun acc g => ingStep acc (ingest_file readF chunkF embedF upsertF g))
        { total_files := files.length, successful := 0, failed := 0,
          total_chunks := 0, details := [] }) =
      ((files.map (ingest_file readF chunkF embedF upsertF)).foldl ingStep
        { total_files := files.length, successful := 0, failed := 0,
          total_chunks := 0, details := [] }) from (List.foldl_map _ _ _ _).symm,
      foldl_ingStep]
  all_goals simp

/-- Witness for ingest_failure_isolated: four valid files and one
corrupt file give successful = 4, failed = 1 and five detail records. -/
theorem ingest_failure_isolated_witness :
    "bad.txt" ∈ filesW ∧ readFW "bad.txt" = .error "corrupt" ∧
    ∃ s, ingest_directory readFW chunkFW embedFW upsertFW filesW = .ok s ∧
      s.successful = 4 ∧ s.failed = 1 ∧ s.details.length = 5 := by
  obtain ⟨h1, h2, s, hs, hdet, htot, hsucc, hfail⟩ :=
    ingest_failure_isolated readFW chunkFW embedFW upsertFW filesW "bad.txt" "corrupt"
      (by decide) (Or.inl (by rfl))
  refine ⟨by decide, by rfl, s, hs, ?_, ?_, ?_⟩
  · rw [hsucc]; decide
  · rw [hfail]; decide
  · rw [hdet]; decide

/-- C10: both directory aggregation loops keep successful + failed
equal to total_files, total_chunks equal to the summed chunks of the
success outcomes in details, and count every non-success outcome —
including skipped ones — in failed; there is no separate skipped
counter. -/
theorem ingest_summary_invariants (readF : String → Except String String)
    (chunkF : String → Except String (List String))
    (embedF : List String → Except String (List (List ℚ)))
    (upsertF : String → List String → List (List ℚ) → Except String Unit)
    (files : List String) (items : List (Except String IngOutcome)) :
    ((ingest_directory_core readF chunkF embedF upsertF files).successful +
        (ingest_directory_core readF chunkF embedF upsertF files).failed =
      (ingest_directory_core readF chunkF embedF upsertF files).total_files ∧
     (ingest_directory_core readF chunkF embedF upsertF files).total_chunks =
      (((ingest_directory_core readF chunkF embedF upsertF files).details.filter
          isSuccess).map IngOutcome.chunks_ingested).sum ∧
     (ingest_directory_core readF chunkF embedF upsertF files).failed =
      ((ingest_directory_core readF chunkF embedF upsertF files).details.filter
          (fun r => ! isSuccess r)).length) ∧
    ((ingest_directory_async_core items).successful +
        (ingest_directory_async_core items).failed =
      (ingest_directory_async_core items).total_files ∧
     (ingest_directory_async_core items).total_chunks =
      (((ingest_directory_async_core items).details.filter
          isSuccess).map IngOutcome.chunks_ingested).sum ∧
     (ingest_directory_async_core items).failed =
      ((ingest_directory_async_core items).details.filter
          (fun r => ! isSuccess r)).length) := by
  have hseq : ingest_directory_core readF chunkF embedF upsertF files =
      { total_files := files.length,
        successful :=
          ((files.map (ingest_file readF chunkF embedF upsertF)).filter isSuccess).length,
        failed := ((files.map (ingest_file readF chunkF embedF upsertF)).filter
          (fun r => ! isSuccess r)).length,
        total_chunks := (((files.map (ingest_file readF chunkF embedF upsertF)).filter
          isSuccess).map IngOutcome.chunks_ingested).sum,
        details := files.map (ingest_file readF chunkF embedF upsertF) } := by
    rw [ingest_directory_core, show
      (files.foldl (fun acc g => ingStep acc (ingest_file readF chunkF embedF upsertF g))
        { total_files := files.length, successful := 0, failed := 0,
          total_chunks := 0, details := [] }) =
      ((files.map (ingest_file readF chunkF embedF upsertF)).foldl ingStep
        { total_files := files.length, successful := 0, failed := 0,
          total_chunks := 0, details := [] }) from (List.foldl_map _ _ _ _).symm,
      foldl_ingStep]
    simp
  have hasync : ingest_directory_async_core items =
      { total_files := items.length,
        successful := ((items.map asyncOutcome).filter isSuccess).length,
        failed := ((items.map asyncOutcome).filter (fun r => ! isSuccess r)).length,
        total_chunks := (((items.map asyncOutcome).filter
          isSuccess).map IngOutcome.chunks_ingested).sum,
        details := items.map asyncOutcome } := by
    rw [ingest_directory_async_core, show
      (items.foldl ingAsyncStep
        { total_files := items.length, successful := 0, failed := 0,
          total_chunks := 0, details := [] }) =
      (items.foldl (fun acc item => ingStep acc (asyncOutcome item))
        { total_files := items.length, successful := 0, failed := 0,
          total_chunks := 0, details := [] }) from by
        congr 1
        funext acc item
        exact ingAsyncStep_eq acc item,
      show (items.foldl (fun acc item => ingStep acc (asyncOutcome item))
        { total_files := items.length, successful := 0, failed := 0,
          total_chunks := 0, details := [] }) =
      ((items.map asyncOutcome).foldl ingStep
        { total_files := items.length, successful := 0, failed := 0,
          total_chunks := 0, details := [] }) from (List.foldl_map _ _ _ _).symm,
      foldl_ingStep]
    simp
  rw [hseq, hasync]
  refine ⟨⟨?_, rfl, rfl⟩, ⟨?_, rfl, rfl⟩⟩
  · simpa using
      (@List.length_eq_length_filter_add IngOutcome
        (files.map (ingest_file readF chunkF embedF upsertF)) isSuccess).symm
  · simpa using
      (@List.length_eq_length_filter_add IngOutcome (items.map asyncOutcome) isSuccess).symm

/-! ### Mode dispatch (claim C9) -/

/-- C9: any mode other than sparse and hybrid — e.g. Dense, fuzzy or
the empty string — makes QueryEngine.search (and hence Radiate.search
and Radiate.query) fall through to the plain dense search and return
its results without error; only a direct HybridRetriever.search call
rejects a mode outside dense, sparse, hybrid, with a message listing
the valid modes. -/
theorem unknown_mode_dense_fallback (log : ℚ → ℚ) (scoreFmt : ℚ → String)
    (denseF : ℕ → List SearchResult) (query : String) (top_k : ℕ) (mode : String)
    (h1 : mode ≠ "sparse") (h2 : mode ≠ "hybrid") :
    QueryEngine.search log denseF query top_k mode =
      .ok ((denseF top_k).map (fun r => (r, none))) ∧
    Radiate.search log denseF query top_k mode =
      .ok ((denseF top_k).map (fun r => (r, none))) ∧
    (∃ ctx, Radiate.query scoreFmt log denseF query top_k mode = .ok ctx) ∧
    (mode ≠ "dense" → ∀ rrf_k initial_k,
      HybridRetriever.search log rrf_k denseF query top_k initial_k mode =
        .error ("Unknown mode: " ++ mode ++ ". Use 'dense', 'sparse', or 'hybrid'")) := by
  have hq : QueryEngine.search log denseF query top_k mode =
      .ok ((denseF top_k).map (fun r => (r, none))) := by
    simp [QueryEngine.search, h1, h2]
  refine ⟨hq, hq, ⟨_, by rw [Radiate.query, hq]; rfl⟩, fun h3 rrf_k initial_k => ?_⟩
  simp [HybridRetriever.search, h1, h2, h3]

/-- Witness for unknown_mode_dense_fallback at the mode string fuzzy. -/
theorem unknown_mode_dense_fallback_witness :
    ("fuzzy" ≠ "sparse" ∧ "fuzzy" ≠ "hybrid") ∧
    (QueryEngine.search (fun x => x) (fun _ => []) "q" 5 "fuzzy" =
      .ok (((fun _ => ([] : List SearchResult)) 5).map (fun r => (r, none))) ∧
     Radiate.search (fun x => x) (fun _ => []) "q" 5 "fuzzy" =
      .ok (((fun _ => ([] : List SearchResult)) 5).map (fun r => (r, none))) ∧
     (∃ ctx, Radiate.query (fun _ => "") (fun x => x) (fun _ => []) "q" 5 "fuzzy" = .ok ctx) ∧
     ("fuzzy" ≠ "dense" → ∀ rrf_k initial_k,
       HybridRetriever.search (fun x => x) rrf_k (fun _ => []) "q" 5 initial_k "fuzzy" =
         .error ("Unknown mode: " ++ "fuzzy" ++ ". Use 'dense', 'sparse', or 'hybrid'"))) :=
  ⟨⟨by decide, by decide⟩,
    unknown_mode_dense_fallback (fun x => x) (fun _ => "") (fun _ => []) "q" 5 "fuzzy"
      (by decide) (by decide)⟩

/-! ### RRF fusion against the spec formula (claim C4) -/

/-- On a duplicate-free id list the last-occurrence rank map agrees
with the first-occurrence index the spec describes. -/
lemma lastIndexFrom_nodup (i : ℕ) :
    ∀ ids : List ℕ, ids.Nodup → ∀ k,
      lastIndexFrom i ids k = if i ∈ ids then some (ids.indexOf i + k) else none := by
  intro ids
  induction ids with
  | nil => intro _ k; simp [lastIndexFrom]
  | cons x xs ih =>
    intro hnd k
    have hx : x ∉ xs := (List.nodup_cons.mp hnd).1
    have hxs : xs.Nodup := (List.nodup_cons.mp hnd).2
    rw [lastIndexFrom, ih hxs (k + 1)]
    by_cases hmem : i ∈ xs
    · have hne : x ≠ i := fun h => hx (h ▸ hmem)
      simp [hmem, hne, List.indexOf_cons, Ne.symm hne]
      omega
    · by_cases heq : x = i
      · subst heq
        simp [hmem, List.indexOf_cons]
      · simp [hmem, heq, Ne.symm heq, List.indexOf_cons]

/-- The rank map of the fusion step, on duplicate-free result lists. -/
lemma rankOf_nodup (l : List SearchResult) (i : ℕ)
    (hnd : (l.map (fun r => r.id)).Nodup) :
    rankOf l i =
      if i ∈ l.map (fun r => r.id) then some ((l.map (fun r => r.id)).indexOf i)
      else none := by
  rw [rankOf, lastIndexFrom_nodup i _ hnd 0]
  simp

/-- On duplicate-free lists the code's fused score is exactly the
spec's sum of reciprocal-rank contributions. -/
lemma rrfScoreOf_eq_spec (K : ℕ) (dense sparse : List SearchResult) (i : ℕ)
    (hd : (dense.map (fun r => r.id)).Nodup)
    (hs : (sparse.map (fun r => r.id)).Nodup) :
    rrfScoreOf K dense sparse i = specRrfScore K dense sparse i := by
  rw [rrfScoreOf, specRrfScore, rankOf_nodup dense i hd, rankOf_nodup sparse i hs]
  by_cases h1 : i ∈ dense.map (fun r => r.id) <;>
    by_cases h2 : i ∈ sparse.map (fun r => r.id) <;>
      simp [h1, h2]

/-- C4: on duplicate-free result lists every identifier's fused score
is the spec's sum of 1/(rrfConstant + rank + 1) over the lists
containing it (both terms when it occurs in both); the fused list is
ordered non-increasing in that score; and hybrid search returns
exactly the top-k of the fusion of the initial-k dense and sparse
results. -/
theorem hybrid_rrf_spec (log : ℚ → ℚ) (K : ℕ) (denseF : ℕ → List SearchResult)
    (query : String) (top_k initial_k : ℕ) (dense sparse : List SearchResult)
    (hd : (dense.map (fun r => r.id)).Nodup)
    (hs : (sparse.map (fun r => r.id)).Nodup) :
    (∀ i, rrfScoreOf K dense sparse i = specRrfScore K dense sparse i) ∧
    List.Pairwise (fun a b : SearchResult × ℚ => b.2 ≤ a.2)
      (reciprocal_rank_fusion K dense sparse) ∧
    HybridRetriever.search log K denseF query top_k initial_k "hybrid" =
      .ok (((reciprocal_rank_fusion K (denseF initial_k)
        (sparse_search log denseF query initial_k initial_k)).take top_k).map
          (fun e => (e.1, some e.2))) :=
  ⟨fun i => rrfScoreOf_eq_spec K dense sparse i hd hs,
   rrf_fusion_sorted K dense sparse,
   rfl⟩

/-- Witness for hybrid_rrf_spec on the concrete C2 lists, whose id
lists are duplicate-free. -/
theorem hybrid_rrf_spec_witness :
    ((denseC2.map (fun r => r.id)).Nodup ∧ (sparseC2.map (fun r => r.id)).Nodup) ∧
    (∀ i, rrfScoreOf 60 denseC2 sparseC2 i = specRrfScore 60 denseC2 sparseC2 i) ∧
    List.Pairwise (fun a b : SearchResult × ℚ => b.2 ≤ a.2)
      (reciprocal_rank_fusion 60 denseC2 sparseC2) ∧
    HybridRetriever.search (fun x => x) 60 (fun _ => []) "q" 5 100 "hybrid" =
      .ok (((reciprocal_rank_fusion 60 ((fun _ => ([] : List SearchResult)) 100)
        (sparse_search (fun x => x) (fun _ => []) "q" 100 100)).take 5).map
          (fun e => (e.1, some e.2))) :=
  ⟨⟨by decide, by decide⟩,
    hybrid_rrf_spec (fun x => x) 60 (fun _ => []) "q" 5 100 denseC2 sparseC2
      (by decide) (by decide)⟩

/-! ### BM25 term-frequency monotonicity (claim C6) -/

/-- The per-token accumulation loop of get_scores is a sum. -/
lemma foldl_add_eq_sum (g : String → ℚ) (l : List String) :
    ∀ a : ℚ, l.foldl (fun s t => s + g t) a = a + (l.map g).sum := by
  induction l with
  | nil => intro a; simp
  | cons t ts ih => intro a; rw [List.foldl_cons, ih]; simp; ring

/-- bm25ScoreDoc as a sum over the query tokens. -/
lemma bm25ScoreDoc_eq_sum (m : BM25Model) (qT dT : List String) (len : ℕ) :
    bm25ScoreDoc m qT dT len = (qT.map (bm25TokenScore m dT len)).sum := by
  rw [bm25ScoreDoc, foldl_add_eq_sum]
  ring

/-- The saturating tf fraction tf(k1+1)/(tf+K) is non-decreasing in tf
for nonnegative k1 and positive K. -/
lemma bm25_frac_mono (k1 K tf1 tf2 : ℚ) (h1 : 0 ≤ tf1) (hle : tf1 ≤ tf2)
    (hk : 0 ≤ k1) (hK : 0 < K) :
    tf1 * (k1 + 1) / (tf1 + K) ≤ tf2 * (k1 + 1) / (tf2 + K) := by
  rw [div_le_div_iff₀ (by linarith) (by linarith)]
  nlinarith [mul_nonneg (mul_nonneg (by linarith : (0:ℚ) ≤ k1 + 1) hK.le)
    (by linarith : (0:ℚ) ≤ tf2 - tf1)]

/-- Every idf value produced by fit is nonnegative: the document
frequency of a stored token is between 1 and the corpus size, so the
argument of log is at least 1. -/
lemma fit_idf_nonneg (log : ℚ → ℚ) (hlog : ∀ x : ℚ, 1 ≤ x → 0 ≤ log x)
    (k1 b : ℚ) (corpus : List String) (token : String) (v : ℚ)
    (h : (BM25.fit log k1 b corpus).idf token = some v) : 0 ≤ v := by
  rw [BM25.fit] at h
  simp only at h
  by_cases hdf : 0 < bm25DF corpus token
  · rw [if_pos hdf, Option.some_inj] at h
    have hdfle : (bm25DF corpus token : ℚ) ≤ (corpus.length : ℚ) := by
      exact_mod_cast List.length_filter_le _ _
    have harg : (1 : ℚ) ≤
        (((corpus.length : ℚ) - (bm25DF corpus token : ℚ) + 1/2) /
          ((bm25DF corpus token : ℚ) + 1/2)) + 1 := by
      have hnum : (0 : ℚ) ≤ (corpus.length : ℚ) - (bm25DF corpus token : ℚ) + 1/2 := by
        linarith
      have hden : (0 : ℚ) < (bm25DF corpus token : ℚ) + 1/2 := by
        have : (0 : ℚ) ≤ (bm25DF corpus token : ℚ) := by positivity
        linarith
      have := div_nonneg hnum hden.le
      linarith
    rw [← h]
    exact hlog _ harg
  · rw [if_neg hdf] at h
    cases h

/-- C6: with the default k1 = 3/2 and b = 3/4, a model fitted on a
corpus with at least one token assigns a document a score that cannot
decrease when the term frequency of each query token in that document
grows while every other document, the query, and the fitted lengths
stay fixed. -/
theorem bm25_tf_monotonic (log : ℚ → ℚ) (hlog : ∀ x : ℚ, 1 ≤ x → 0 ≤ log x)
    (C : List String) (query : String) (i : ℕ) (doc2 : String)
    (hilen : i < C.length)
    (hsum : 0 < (C.map (fun d => (tokenizeM d).length)).sum)
    (hcount : ∀ u ∈ tokenizeM query,
      (tokenizeM (C.getD i "")).count u ≤ (tokenizeM doc2).count u) :
    (BM25.get_scores (BM25.fit log (3/2) (3/4) C) query C).getD i 0 ≤
      (BM25.get_scores (BM25.fit log (3/2) (3/4) C) query (C.set i doc2)).getD i 0 := by
  set m := BM25.fit log (3/2) (3/4) C with hm
  have hget : ∀ corpus : List String, i < corpus.length →
      (BM25.get_scores m query corpus).getD i 0 =
        bm25ScoreDoc m (tokenizeM query) (tokenizeM (corpus.getD i ""))
          (m.doc_lengths.getD i 0) := by
    intro corpus hi
    rw [BM25.get_scores]
    rw [List.getD_eq_getElem?_getD, List.getElem?_map, List.getElem?_range hi]
    rfl
  rw [hget C hilen, hget (C.set i doc2) (by simpa using hilen)]
  have hdoc2 : (C.set i doc2).getD i "" = doc2 := by
    rw [List.getD_eq_getElem?_getD, List.getElem?_set_self]
    · rfl
    · simpa using hilen
  rw [hdoc2, bm25ScoreDoc_eq_sum, bm25ScoreDoc_eq_sum]
  apply List.sum_le_sum
  intro u hu
  rw [bm25TokenScore, bm25TokenScore]
  cases hidf : m.idf u with
  | none => exact le_refl 0
  | some idfS =>
    have hidfnn : 0 ≤ idfS := fit_idf_nonneg log hlog (3/2) (3/4) C u idfS (hm ▸ hidf)
    simp only
    have hk1 : m.k1 = 3/2 := rfl
    have hb : m.b = 3/4 := rfl
    have havg : 0 < m.avgdl := by
      have hpos : 0 < C.length := by omega
      have : m.avgdl = ((C.map (fun d => (tokenizeM d).length)).sum : ℚ) / (C.length : ℚ) := by
        rw [hm, BM25.fit]
        simp [hpos]
      rw [this]
      apply div_pos
      · exact_mod_cast hsum
      · exact_mod_cast hpos
    have hK : 0 < m.k1 * (1 - m.b + m.b * (((m.doc_lengths.getD i 0 : ℕ) : ℚ) / m.avgdl)) := by
      rw [hk1, hb]
      have hr : (0 : ℚ) ≤ ((m.doc_lengths.getD i 0 : ℕ) : ℚ) / m.avgdl := by
        apply div_nonneg _ havg.le
        positivity
      nlinarith
    have htf1 : (0 : ℚ) ≤ ((tokenizeM (C.getD i "")).count u : ℚ) := by positivity
    have htfle : ((tokenizeM (C.getD i "")).count u : ℚ) ≤ ((tokenizeM doc2).count u : ℚ) := by
      exact_mod_cast hcount u hu
    exact mul_le_mul_of_nonneg_left
      (bm25_frac_mono m.k1 _ _ _ htf1 htfle (by rw [hk1]; norm_num) hK) hidfnn

/-- Witness for bm25_tf_monotonic: corpus [the cat, dog], query cat,
first document replaced by cat cat (the query token count rises from 1
to 2), with log instantiated as x - 1, which is nonnegative from 1 on. -/
theorem bm25_tf_monotonic_witness :
    (∀ x : ℚ, 1 ≤ x → 0 ≤ x - 1) ∧ 0 < 2 ∧
    0 < ((["the cat", "dog"].map (fun d => (tokenizeM d).length)).sum) ∧
    (∀ u ∈ tokenizeM "cat",
      (tokenizeM (["the cat", "dog"].getD 0 "")).count u ≤ (tokenizeM "cat cat").count u) ∧
    (BM25.get_scores (BM25.fit (fun x => x - 1) (3/2) (3/4) ["the cat", "dog"]) "cat"
        ["the cat", "dog"]).getD 0 0 ≤
      (BM25.get_scores (BM25.fit (fun x => x - 1) (3/2) (3/4) ["the cat", "dog"]) "cat"
        (["the cat", "dog"].set 0 "cat cat")).getD 0 0 :=
  ⟨fun x hx => sub_nonneg.mpr hx, by omega, by decide, by decide,
    bm25_tf_monotonic (fun x => x - 1) (fun x hx => sub_nonneg.mpr hx)
      ["the cat", "dog"] "cat" 0 "cat cat" (by decide) (by decide) (by decide)⟩

/-! ### Concurrent batch embedding (claim C8) -/

/-- The batch partition concatenates back to the input and never
produces an oversized batch, for positive batch size. -/
lemma batchesGo_spec (bs : ℕ) (hbs : 0 < bs) :
    ∀ fuel (l : List String), l.length ≤ fuel →
      (batchesGo bs fuel l).flatten = l ∧ ∀ b ∈ batchesGo bs fuel l, b.length ≤ bs := by
  intro fuel
  induction fuel with
  | zero =>
    intro l hl
    have : l = [] := List.length_eq_zero.mp (by omega)
    subst this
    simp [batchesGo]
  | succ n ih =>
    intro l hl
    by_cases hemp : l.isEmpty
    · have : l = [] := by
        cases l
        · rfl
        · simp at hemp
      subst this
      simp [batchesGo]
    · have hne : l ≠ [] := by
        cases l
        · simp at hemp
        · exact List.cons_ne_nil _ _
      have hlen : (l.drop bs).length ≤ n := by
        rw [List.length_drop]
        have : 0 < l.length := List.length_pos.mpr hne
        omega
      obtain ⟨hjoin, hsize⟩ := ih (l.drop bs) hlen
      rw [batchesGo]
      simp only [hemp, Bool.false_eq_true, if_false]
      constructor
      · rw [List.flatten_cons, hjoin, List.take_append_drop]
      · intro b hb
        rcases List.mem_cons.mp hb with hb | hb
        · subst hb
          exact (List.length_take_le _ _)
        · exact hsize b hb

/-- embed on a coherent cache always returns the backend vector of its
input and keeps the cache coherent. -/
lemma embed_coherent (backend : String → List ℚ) (hashF : String → String)
    (hcol : ∀ t1 t2, hashF t1 = hashF t2 → backend t1 = backend t2)
    (s : EmbState) (t : String)
    (hcoh : CacheCoherent backend hashF s) (hbl : isBlank t = false) :
    ∃ s1 b1, embed backend hashF s t = .ok (backend t, s1, b1) ∧
      CacheCoherent backend hashF s1 := by
  cases hc : s.cache (hashF t) with
  | some v =>
    have hv : v = backend t := by
      rcases hcoh t with h | h
      · rw [hc] at h; cases h
      · rw [hc] at h; exact Option.some_inj.mp h
    subst hv
    refine ⟨{ s with cached_embeddings := s.cached_embeddings + 1 }, false,
      by simp [embed, hbl, hc], ?_⟩
    intro t'
    exact hcoh t'
  | none =>
    refine ⟨{ s with total_embeddings := s.total_embeddings + 1,
                     cache := fun k => if k = hashF t then some (backend t) else s.cache k },
      true, by simp [embed, hbl, hc], ?_⟩
    intro t'
    by_cases he : hashF t' = hashF t
    · right
      simp only [he, if_pos]
      rw [hcol t t' he.symm]
    · rcases hcoh t' with h | h
      · left
        simpa [he] using h
      · right
        simpa [he] using h

/-- A whole batch embedded through a coherent cache yields the
backend image of the batch, and coherence is preserved. -/
lemma embedTexts_coherent (backend : String → List ℚ) (hashF : String → String)
    (hcol : ∀ t1 t2, hashF t1 = hashF t2 → backend t1 = backend t2) :
    ∀ (batch : List String) (s : EmbState), CacheCoherent backend hashF s →
      (∀ t ∈ batch, isBlank t = false) →
      ∃ s1, embedTexts backend hashF s batch = .ok (batch.map backend, s1) ∧
        CacheCoherent backend hashF s1 := by
  intro batch
  induction batch with
  | nil => intro s hcoh _; exact ⟨s, rfl, hcoh⟩
  | cons t ts ih =>
    intro s hcoh hbl
    obtain ⟨s1, b1, he, hcoh1⟩ :=
      embed_coherent backend hashF hcol s t hcoh (hbl t (List.mem_cons_self t ts))
    obtain ⟨s2, he2, hcoh2⟩ := ih s1 hcoh1 (fun u hu => hbl u (List.mem_cons_of_mem t hu))
    refine ⟨s2, ?_, hcoh2⟩
    simp [embedTexts, he, he2]

/-- Processing the batches in any completion order fills each slot
with the backend image of the batch at that index. -/
lemma runBatches_spec (backend : String → List ℚ) (hashF : String → String)
    (hcol : ∀ t1 t2, hashF t1 = hashF t2 → backend t1 = backend t2)
    (batches : List (List String))
    (hblank : ∀ b ∈ batches, ∀ t ∈ b, isBlank t = false) :
    ∀ (order : List ℕ) (s : EmbState) (slots : ℕ → Option (List (List ℚ))),
      CacheCoherent backend hashF s →
      ∃ f, runBatches backend hashF batches order s slots = .ok f ∧
        ∀ j, f j = if j ∈ order then some ((batches.getD j []).map backend) else slots j := by
  intro order
  induction order with
  | nil =>
    intro s slots hcoh
    refine ⟨slots, rfl, fun j => ?_⟩
    simp
  | cons i rest ih =>
    intro s slots hcoh
    have hbatch : ∀ t ∈ batches.getD i [], isBlank t = false := by
      by_cases hi : i < batches.length
      · intro t ht
        refine hblank (batches.getD i []) ?_ t ht
        rw [List.getD_eq_getElem?_getD, List.getElem?_eq_getElem hi]
        exact List.getElem_mem hi
      · intro t ht
        rw [List.getD_eq_getElem?_getD, List.getElem?_eq_none (by omega)] at ht
        cases ht
    obtain ⟨s1, he, hcoh1⟩ :=
      embedTexts_coherent backend hashF hcol (batches.getD i []) s hcoh hbatch
    obtain ⟨f, hf, hfj⟩ :=
      ih s1 (fun j => if j = i then some ((batches.getD i []).map backend) else slots j) hcoh1
    refine ⟨f, ?_, fun j => ?_⟩
    · rw [runBatches, he]
      exact hf
    · rw [hfj j]
      by_cases hj1 : j ∈ rest
      · simp [hj1, List.mem_cons]
      · by_cases hj2 : j = i
        · subst hj2
          simp [hj1]
        · simp [hj1, hj2, List.mem_cons]

/-- Reading a list back through getD over its index range. -/
lemma map_range_getD {α : Type} (d : α) :
    ∀ l : List α, (List.range l.length).map (fun i => l.getD i d) = l := by
  intro l
  induction l with
  | nil => rfl
  | cons x xs ih =>
    rw [List.length_cons, List.range_succ_eq_map, List.map_cons, List.map_map]
    have : ((fun i => (x :: xs).getD i d) ∘ Nat.succ) = fun i => xs.getD i d := by
      funext i
      rfl
    rw [this, ih]
    rfl

/-- Admissibility of a gate trace bounds the number of in-flight
batches at every point of the trace by maxC. -/
lemma admissible_inFlight_le (maxC : ℕ) :
    ∀ tr, Admissible maxC tr → ∀ n, inFlight (tr.take n) ≤ maxC := by
  intro tr h
  induction h with
  | nil => intro n; simp [inFlight]
  | start tr i h hlt ih =>
    intro n
    rcases le_or_lt n tr.length with hle | hgt
    · rw [List.take_append_of_le_length hle]
      exact ih n
    · rw [List.take_of_length_le (by simpa using hgt)]
      have : inFlight (tr ++ [BatchEv.start i]) = inFlight tr + 1 := by
        rw [inFlight, List.foldl_append]
        rfl
      omega
  | finish tr i h hpos ih =>
    intro n
    rcases le_or_lt n tr.length with hle | hgt
    · rw [List.take_append_of_le_length hle]
      exact ih n
    · rw [List.take_of_length_le (by simpa using hgt)]
      have hle2 : inFlight tr ≤ maxC := by
        have := ih tr.length
        rwa [List.take_length] at this
      have : inFlight (tr ++ [BatchEv.finish i]) = inFlight tr - 1 := by
        rw [inFlight, List.foldl_append]
        rfl
      omega

/-- C8 (spec-modelled, the source has no embed_batch_async): the
partition splits the texts into batches of at most batchSize that
re-concatenate to the input; for every completion order of the batches
the concurrent embedding returns exactly the backend vectors of the
texts in original input order, each text going through the shared
coherent cache; and under the admission gate at most maxC batches are
ever in flight. -/
theorem embed_batch_concurrent_spec (backend : String → List ℚ) (hashF : String → String)
    (s : EmbState) (texts : List String) (bs maxC : ℕ) (order : List ℕ) (tr : List BatchEv)
    (hbs : 0 < bs)
    (hcoh : CacheCoherent backend hashF s)
    (hcol : ∀ t1 t2, hashF t1 = hashF t2 → backend t1 = backend t2)
    (hblank : ∀ t ∈ texts, isBlank t = false)
    (hperm : order.Perm (List.range (batchesOf bs texts).length))
    (hadm : Admissible maxC tr) :
    (batchesOf bs texts).flatten = texts ∧
    (∀ b ∈ batchesOf bs texts, b.length ≤ bs) ∧
    embed_batch_concurrent backend hashF s texts bs order = .ok (texts.map backend) ∧
    (∀ n, inFlight (tr.take n) ≤ maxC) := by
  obtain ⟨hjoin, hsize⟩ := batchesGo_spec bs hbs texts.length texts (le_refl _)
  have hjoin2 : (batchesOf bs texts).flatten = texts := hjoin
  refine ⟨hjoin2, hsize, ?_, admissible_inFlight_le maxC tr hadm⟩
  have hblank2 : ∀ b ∈ batchesOf bs texts, ∀ t ∈ b, isBlank t = false := by
    intro b hb t ht
    apply hblank
    rw [← hjoin]
    exact List.mem_flatten.mpr ⟨b, hb, ht⟩
  obtain ⟨f, hrun, hfj⟩ :=
    runBatches_spec backend hashF hcol (batchesOf bs texts) hblank2 order s
      (fun _ => none) hcoh
  rw [embed_batch_concurrent]
  simp only [hrun]
  show Except.ok
      (((List.range (batchesOf bs texts).length).map (fun i => (f i).getD [])).flatten) =
    Except.ok (texts.map backend)
  congr 1
  have hmem : ∀ j ∈ List.range (batchesOf bs texts).length, j ∈ order := by
    intro j hj
    exact hperm.mem_iff.mpr hj
  have hstep1 : (List.range (batchesOf bs texts).length).map (fun i => (f i).getD []) =
      (List.range (batchesOf bs texts).length).map
        (fun i => ((batchesOf bs texts).getD i []).map backend) := by
    apply List.map_congr_left
    intro i hi
    rw [hfj i, if_pos (hmem i hi)]
    rfl
  rw [hstep1]
  have hstep2 : (List.range (batchesOf bs texts).length).map
      (fun i => ((batchesOf bs texts).getD i []).map backend) =
      ((batchesOf bs texts).map (List.map backend)) := by
    have hlen : (batchesOf bs texts).length = ((batchesOf bs texts).map (List.map backend)).length := by
      rw [List.length_map]
    rw [show (fun i => ((batchesOf bs texts).getD i []).map backend) =
        (fun i => ((batchesOf bs texts).map (List.map backend)).getD i []) from ?_, hlen,
      map_range_getD]
    funext i
    rw [List.getD_eq_getElem?_getD, List.getD_eq_getElem?_getD, List.getElem?_map]
    cases hc : (batchesOf bs texts)[i]? with
    | none => rfl
    | some b => rfl
  rw [hstep2, ← List.map_flatten, hjoin2]

/-- Witness for embed_batch_concurrent_spec: three texts in batches of
two, completion order [1, 0] (second batch finishes first), gate bound
two with an interleaved trace. -/
theorem embed_batch_concurrent_spec_witness :
    (0 < 2 ∧
     CacheCoherent (fun _ => [0]) (fun t => t) EmbState.init ∧
     (∀ t1 t2 : String, (fun t : String => t) t1 = (fun t : String => t) t2 →
        (fun _ : String => ([0] : List ℚ)) t1 = (fun _ : String => ([0] : List ℚ)) t2) ∧
     (∀ t ∈ ["a", "b", "c"], isBlank t = false) ∧
     List.Perm [1, 0] (List.range (batchesOf 2 ["a", "b", "c"]).length) ∧
     Admissible 2 [.start 0, .start 1, .finish 1, .finish 0]) ∧
    ((batchesOf 2 ["a", "b", "c"]).flatten = ["a", "b", "c"] ∧
     (∀ b ∈ batchesOf 2 ["a", "b", "c"], b.length ≤ 2) ∧
     embed_batch_concurrent (fun _ => [0]) (fun t => t) EmbState.init
        ["a", "b", "c"] 2 [1, 0] =
       .ok (["a", "b", "c"].map (fun _ => [0])) ∧
     (∀ n, inFlight (([.start 0, .start 1, .finish 1, .finish 0] : List BatchEv).take n) ≤ 2)) :=
  have hadm : Admissible 2 [.start 0, .start 1, .finish 1, .finish 0] :=
    Admissible.finish [.start 0, .start 1, .finish 1] 0
      (Admissible.finish [.start 0, .start 1] 1
        (Admissible.start [.start 0] 1
          (Admissible.start [] 0 Admissible.nil (by decide))
          (by decide))
        (by decide))
      (by decide)
  ⟨⟨by omega, fun t => Or.inl rfl, fun t1 t2 _ => rfl, by decide, by decide, hadm⟩,
    embed_batch_concurrent_spec (fun _ => [0]) (fun t => t) EmbState.init
      ["a", "b", "c"] 2 2 [1, 0] [.start 0, .start 1, .finish 1, .finish 0]
      (by omega) (fun t => Or.inl rfl) (fun t1 t2 _ => rfl) (by decide) (by decide) hadm⟩
